import Mathlib

/-!
Verification of the `Encode` derive expansion of
`sqlx-macros/src/derives/encode.rs`: shape classification of a type
definition, per-strategy code generation (transparent wrapper, weak enum,
strong enum, record/struct), and the semantics of the generated
`encode` / `encode_nullable` / `size_hint` operations.

The macro input is modelled after the fragment of `syn` the source
inspects: a `DeriveInput` whose `data` is a struct (with named, unnamed or
unit fields), an enum (a list of variants), or a union.  Attribute parsing
(`parse_container_attributes`, `parse_child_attributes`) lives in a module
that is an external collaborator here; its *result* (container `repr`,
`rename`, `rename_all`; per-member `rename`) is carried pre-parsed on the
input, as the spec treats the attribute tokenizer/parser as out of scope.
-/

namespace SqlxEncode

/-- A casing convention for `rename_all` (the spec names lowercase and
snake_case-style conventions; the test suite uses `lowercase`). -/
inductive CasingConvention
  | lowercase
  deriving DecidableEq, Repr

/-- Modelled from the spec: the Casing Transformer `rename_all` (its source
file is not part of the excerpt).  Given an identifier string and a
convention, it returns the transformed label deterministically; the
`lowercase` convention lowercases the identifier. -/
def rename_all (s : String) (pattern : CasingConvention) : String :=
  match pattern with
  | .lowercase => ⟨s.data.map Char.toLower⟩

/-- Container-level attributes, as produced by `parse_container_attributes`:
`repr` (the integer representation type name), `rename`, `rename_all`. -/
structure ContainerAttributes where
  repr : Option String
  rename : Option String
  rename_all : Option CasingConvention
  deriving DecidableEq, Repr

/-- A struct field (`syn::Field`): an optional identifier (named fields
have one, unnamed fields do not) and a type, kept as its name. -/
structure Field where
  ident : Option String
  ty : String
  deriving DecidableEq, Repr

/-- An enum variant (`syn::Variant`): its identifier, its parsed child
attributes (`rename`), and its optional explicit discriminant. -/
structure Variant where
  ident : String
  rename : Option String
  discr : Option Int
  deriving DecidableEq, Repr

/-- The shapes of `syn::Fields`: named, unnamed, or unit. -/
inductive FieldsShape
  | named (fields : List Field)
  | unnamed (fields : List Field)
  | unit
  deriving DecidableEq, Repr

/-- The shapes of `syn::Data`: struct, enum, or union. -/
inductive Data
  | struct (fields : FieldsShape)
  | enum (variants : List Variant)
  | union
  deriving DecidableEq, Repr

/-- The derive input: identifier, structural data, and the container
attributes already parsed from `input.attrs`. -/
structure DeriveInput where
  ident : String
  data : Data
  attrs : ContainerAttributes
  deriving DecidableEq, Repr

/-- The strategy chosen by the dispatch `match` in `expand_derive_encode`:
which generator the input is sent to, or the error it is rejected with. -/
inductive Strategy
  | transparent (field : Field)
  | weakEnum (variants : List Variant)
  | strongEnum (variants : List Variant)
  | record (fields : List Field)
  | unsupported (msg : String)
  deriving DecidableEq, Repr

/-- The branch selection of `expand_derive_encode`, arm for arm in the
source order: a one-field unnamed struct goes to the transparent
generator; an enum goes to the weak-enum generator when the container
attributes carry `repr` and to the strong-enum generator otherwise; a
named-field struct goes to the struct (record) generator; a union, an
unnamed struct with zero or several fields, and a unit struct are
rejected with the source's error messages. -/
def classify (input : DeriveInput) : Strategy :=
  match input.data with
  | .struct (.unnamed [f]) => .transparent f
  | .enum variants =>
    match input.attrs.repr with
    | some _ => .weakEnum variants
    | none => .strongEnum variants
  | .struct (.named fields) => .record fields
  | .union => .unsupported "unions are not supported"
  | .struct (.unnamed _) =>
    .unsupported "structs with zero or more than one unnamed field are not supported"
  | .struct .unit => .unsupported "unit structs are not supported"

/-- The classification as the spec words it, written as an
order-independent case analysis on the shape (each shape appears in
exactly one case, with no fallback between cases); used to compare the
source's ordered `match` against the spec's mapping. -/
def specClassify (input : DeriveInput) : Strategy :=
  match input.data, input.attrs.repr with
  | .union, _ => .unsupported "unions are not supported"
  | .struct .unit, _ => .unsupported "unit structs are not supported"
  | .struct (.named fields), _ => .record fields
  | .struct (.unnamed [f]), _ => .transparent f
  | .struct (.unnamed _), _ =>
    .unsupported "structs with zero or more than one unnamed field are not supported"
  | .enum variants, some _ => .weakEnum variants
  | .enum variants, none => .strongEnum variants

/-- C1: Shape classification is total with exactly one outcome per shape:
the source's ordered dispatch agrees with the order-independent mapping
taken from the spec — single-field unnamed aggregate to Transparent,
enum with a `repr` to WeakEnum, enum without to StrongEnum, named-field
aggregate to Record, and every other shape (union, zero- or multi-field
unnamed aggregate, unit struct) to an error, with no fallback. -/
theorem classify_eq_specClassify (input : DeriveInput) :
    classify input = specClassify input := by
  rcases input with ⟨ident, data, attrs⟩
  rcases data with fs | variants | _
  · rcases fs with fields | fields | _
    · rfl
    · rcases fields with _ | ⟨f, fields⟩
      · rfl
      · rcases fields with _ | ⟨g, fields⟩ <;> rfl
    · rfl
  · rcases attrs with ⟨repr?, rename?, renameAll?⟩
    rcases repr? with _ | r <;> rfl
  · rfl

/-- The `value_arms` table built by the loop in
`expand_derive_encode_strong_enum`: for each variant in order, its
identifier paired with the wire label chosen for it — the per-variant
`rename` if present, else `rename_all` of the identifier under the
container convention, else the identifier itself. -/
def buildValueArms (renameAllPattern : Option CasingConvention) :
    List Variant → List (String × String)
  | [] => []
  | v :: rest =>
    (match v.rename with
     | some r => (v.ident, r)
     | none =>
       match renameAllPattern with
       | some pattern => (v.ident, rename_all v.ident pattern)
       | none => (v.ident, v.ident)) :: buildValueArms renameAllPattern rest

/-- The token stream returned by `expand_derive_encode`, by cases: the
impl emitted by each generator (with the data the emitted code depends
on), or the empty stream the struct generator returns when the backend
lacks record support. -/
inductive Output
  | transparentImpl (field : Field)
  | weakEnumImpl (repr : String) (variants : List Variant)
  | strongEnumImpl (valueArms : List (String × String))
  | recordImpl (fields : List Field)
  | empty
  deriving DecidableEq, Repr

/-- Modelled from the spec: `check_transparent_attributes` (the attributes
module is not part of the excerpt).  The transparent shape forbids `repr`
and `rename_all` at the container level. -/
def check_transparent_attributes (input : DeriveInput) (_field : Field) :
    Except String Unit :=
  if (input.attrs.repr).isSome then
    .error "repr is not supported on transparent wrappers"
  else if (input.attrs.rename_all).isSome then
    .error "rename_all is not supported on transparent wrappers"
  else
    .ok ()

/-- Modelled from the spec: `check_weak_enum_attributes` (the attributes
module is not part of the excerpt).  The weak-enum shape requires `repr`
to be present; the validated container attributes are returned. -/
def check_weak_enum_attributes (input : DeriveInput) (_variants : List Variant) :
    Except String ContainerAttributes :=
  match input.attrs.repr with
  | some _ => .ok input.attrs
  | none => .error "weak enums require an explicit repr"

/-- Modelled from the spec: `check_strong_enum_attributes` (the attributes
module is not part of the excerpt).  The strong-enum shape forbids `repr`;
the validated container attributes are returned. -/
def check_strong_enum_attributes (input : DeriveInput) (_variants : List Variant) :
    Except String ContainerAttributes :=
  if (input.attrs.repr).isSome then
    .error "repr is not supported on strong enums"
  else
    .ok input.attrs

/-- Modelled from the spec: `check_struct_attributes` (the attributes
module is not part of the excerpt).  The record shape forbids `repr`. -/
def check_struct_attributes (input : DeriveInput) (_fields : List Field) :
    Except String Unit :=
  if (input.attrs.repr).isSome then
    .error "repr is not supported on structs"
  else
    .ok ()

/-- `expand_derive_encode_transparent`: checks the attributes, then emits
the impl delegating to the single unnamed field. -/
def expand_derive_encode_transparent (input : DeriveInput) (field : Field) :
    Except String Output := do
  let _ ← check_transparent_attributes input field
  pure (.transparentImpl field)

/-- `expand_derive_encode_weak_enum`: checks the attributes, unwraps the
`repr`, then emits the impl casting the value to `repr`. -/
def expand_derive_encode_weak_enum (input : DeriveInput) (variants : List Variant) :
    Except String Output := do
  let attr ← check_weak_enum_attributes input variants
  match attr.repr with
  | some r => pure (.weakEnumImpl r variants)
  | none => .error "unwrap of a missing repr"

/-- `expand_derive_encode_strong_enum`: checks the attributes, builds the
`value_arms` table, then emits the matching impl. -/
def expand_derive_encode_strong_enum (input : DeriveInput) (variants : List Variant) :
    Except String Output := do
  let cattr ← check_strong_enum_attributes input variants
  pure (.strongEnumImpl (buildValueArms cattr.rename_all variants))

/-- `expand_derive_encode_struct`: checks the attributes, then — only when
the postgres backend feature is active — emits the record impl; otherwise
the returned token stream stays empty. -/
def expand_derive_encode_struct (postgres : Bool) (input : DeriveInput)
    (fields : List Field) : Except String Output := do
  let _ ← check_struct_attributes input fields
  if postgres then pure (.recordImpl fields) else pure .empty

/-- The driver `expand_derive_encode`: dispatches on the input's data
shape, arm for arm in source order; `postgres` is the
`cfg!(feature = "postgres")` backend capability flag consumed by the
struct generator. -/
def expand_derive_encode (postgres : Bool) (input : DeriveInput) :
    Except String Output :=
  match input.data with
  | .struct (.unnamed [f]) => expand_derive_encode_transparent input f
  | .enum variants =>
    match input.attrs.repr with
    | some _ => expand_derive_encode_weak_enum input variants
    | none => expand_derive_encode_strong_enum input variants
  | .struct (.named fields) => expand_derive_encode_struct postgres input fields
  | .union => .error "unions are not supported"
  | .struct (.unnamed _) =>
    .error "structs with zero or more than one unnamed field are not supported"
  | .struct .unit => .error "unit structs are not supported"

/-- The result of `encode_nullable`: `sqlx::encode::IsNull`. -/
inductive IsNull
  | yes
  | no
  deriving DecidableEq, Repr

/-- A raw byte buffer (`DB::RawBuffer`), with bytes kept abstract. -/
abbrev Buf := List Int

/-- An `sqlx::encode::Encode<DB>` implementation for values of type `α`:
`encode` appends wire bytes to the buffer, `encode_nullable` does so and
reports the null marker, `size_hint` estimates the encoded byte count. -/
structure EncodeImpl (α : Type) where
  encode : α → Buf → Buf
  encodeNullable : α → Buf → Buf × IsNull
  sizeHint : α → Nat

/-- A value of a single-field unnamed aggregate (tuple struct); `field0`
is the `self.0` the emitted code reads. -/
structure Wrap (β : Type) where
  field0 : β

/-- The impl emitted by `expand_derive_encode_transparent`: `encode`,
`encode_nullable` and `size_hint` each delegate to the inner field's own
`Encode` implementation applied to `self.0`. -/
def transparentGenerated (inner : EncodeImpl β) : EncodeImpl (Wrap β) where
  encode v buf := inner.encode v.field0 buf
  encodeNullable v buf := inner.encodeNullable v.field0 buf
  sizeHint v := inner.sizeHint v.field0

/-- The integer the Rust `as` cast produces for the variant at index `i`
of a discriminant list: the explicit discriminant when declared, else one
more than the previous variant's value; `next` is the running default
(0 for the first variant). -/
def discrAt (next : Int) : List (Option Int) → Nat → Int
  | [], _ => 0
  | some d :: _, 0 => d
  | none :: _, 0 => next
  | some d :: rest, i + 1 => discrAt (d + 1) rest i
  | none :: rest, i + 1 => discrAt (next + 1) rest i

/-- The integer `*self as #repr` evaluates to when `self` is the variant
at index `i` of `variants`. -/
def variantCast (variants : List Variant) (i : Nat) : Int :=
  discrAt 0 (variants.map Variant.discr) i

/-- The impl emitted by `expand_derive_encode_weak_enum`: each of the
three operations evaluates `*self as #repr` — the variant's discriminant
— and delegates to the `repr` integer type's own implementation. -/
def weakEnumGenerated (variants : List Variant) (reprImpl : EncodeImpl Int) :
    EncodeImpl (Fin variants.length) where
  encode v buf := reprImpl.encode (variantCast variants v.val) buf
  encodeNullable v buf := reprImpl.encodeNullable (variantCast variants v.val) buf
  sizeHint v := reprImpl.sizeHint (variantCast variants v.val)

/-- The shape of the impl emitted by `expand_derive_encode_strong_enum`
and by `expand_derive_encode_struct`: only `encode` and `size_hint` are
emitted fn items (there is no `encode_nullable` in those blocks). -/
structure EncodeSizeImpl (α : Type) where
  encode : α → Buf → Buf
  sizeHint : α → Nat

/-- The label the emitted strong-enum `match` selects for the variant at
index `i`: the second component of that variant's `value_arms` entry. -/
def strongEnumLabel (renameAllPattern : Option CasingConvention)
    (variants : List Variant) (i : Nat) : String :=
  ((buildValueArms renameAllPattern variants).getD i ("", "")).2

/-- The impl emitted by `expand_derive_encode_strong_enum`: `encode` and
`size_hint` each match on the value, select the label from the
`value_arms` table, and delegate to `str`'s implementation on it. -/
def strongEnumGenerated (renameAllPattern : Option CasingConvention)
    (variants : List Variant) (strImpl : EncodeImpl String) :
    EncodeSizeImpl (Fin variants.length) where
  encode v buf := strImpl.encode (strongEnumLabel renameAllPattern variants v.val) buf
  sizeHint v := strImpl.sizeHint (strongEnumLabel renameAllPattern variants v.val)

/-- One operation on the `PgRecordEncoder` in the emitted record `encode`
body: constructing the encoder over the buffer, one
`encoder.encode(&self.field)` write, or `encoder.finish()`. -/
inductive PgRecordOp
  | newEncoder
  | write (field : Option String)
  | finish
  deriving DecidableEq, Repr

/-- The sequence of encoder operations performed by the `encode` emitted
by `expand_derive_encode_struct`: `PgRecordEncoder::new(buf)` first, then
one `encoder.encode(&self.#id)` statement per field from the `writes`
iterator over the declared fields, then `encoder.finish()`. -/
def recordEncodeProgram (fields : List Field) : List PgRecordOp :=
  [PgRecordOp.newEncoder] ++ fields.map (fun f => PgRecordOp.write f.ident)
    ++ [PgRecordOp.finish]

/-- The join of the `sizes` repetition in the emitted record `size_hint`:
the per-column size hints separated by `+`. -/
def plusJoin : List Nat → Nat
  | [] => 0
  | [x] => x
  | x :: y :: rest => x + plusJoin (y :: rest)

/-- The `size_hint` emitted by `expand_derive_encode_struct`:
`column_count * (4 + 4)` — an oid (int) and a length (int) per column —
plus the `+`-joined per-column size hints; `fieldSize f` stands for
`<#ty as Encode<Postgres>>::size_hint(&self.#id)` on the encoded value. -/
def recordSizeHint (fields : List Field) (fieldSize : Field → Nat) : Nat :=
  fields.length * (4 + 4) + plusJoin (fields.map fieldSize)

/-- The `fn` items appearing in the impl block emitted for each strategy,
read off the four `quote!` blocks; the unsupported case emits no impl. -/
def emittedFns : Strategy → List String
  | .transparent _ => ["encode", "encode_nullable", "size_hint"]
  | .weakEnum _ => ["encode", "encode_nullable", "size_hint"]
  | .strongEnum _ => ["encode", "size_hint"]
  | .record _ => ["encode", "size_hint"]
  | .unsupported _ => []

/-- The label the spec's precedence rule picks for a variant: the
explicit per-variant rename if present, else the container convention
applied to the identifier, else the raw identifier. -/
def specVariantLabel (renameAllPattern : Option CasingConvention) (v : Variant) :
    String :=
  match v.rename with
  | some r => r
  | none =>
    match renameAllPattern with
    | some pattern => rename_all v.ident pattern
    | none => v.ident

theorem plusJoin_eq_sum : ∀ l : List Nat, plusJoin l = l.sum
  | [] => rfl
  | [x] => by simp [plusJoin]
  | x :: y :: rest => by
    rw [plusJoin, plusJoin_eq_sum (y :: rest)]
    simp

theorem discrAt_of_some :
    ∀ (l : List (Option Int)) (i : Nat) (next d : Int),
      l[i]? = some (some d) → discrAt next l i = d := by
  intro l
  induction l with
  | nil => intro i next d h; simp at h
  | cons o rest ih =>
    intro i next d h
    cases i with
    | zero =>
      simp at h
      cases o with
      | none => simp at h
      | some d0 => simp at h; simp [discrAt, h]
    | succ i =>
      simp at h
      cases o with
      | none => exact ih i (next + 1) d h
      | some d0 => exact ih i (d0 + 1) d h

theorem buildValueArms_getElem? (p : Option CasingConvention) :
    ∀ (vs : List Variant) (i : Nat) (v : Variant),
      vs[i]? = some v →
      (buildValueArms p vs)[i]? = some (v.ident, specVariantLabel p v) := by
  intro vs
  induction vs with
  | nil => intro i v h; simp at h
  | cons v0 rest ih =>
    intro i v h
    cases i with
    | zero =>
      simp at h
      subst h
      simp only [buildValueArms, specVariantLabel]
      cases h0 : v0.rename with
      | some r => simp [h0]
      | none => cases p <;> simp [h0]
    | succ i =>
      simp at h
      simp only [buildValueArms]
      simpa using ih i v h

theorem variantCast_of_declared (variants : List Variant) (i : Fin variants.length)
    (d : Int) (h : (variants.get i).discr = some d) :
    variantCast variants i.val = d := by
  apply discrAt_of_some
  rw [List.getElem?_map, List.getElem?_eq_getElem i.isLt]
  simp [List.get_eq_getElem] at h
  simp [h]

/-- C2: for a record shape, the generated `size_hint` equals
`column_count * 8` plus the sum over all fields of that field's own
size hint, where 8 is the per-field overhead of a 4-byte type id plus a
4-byte length prefix. -/
theorem record_size_hint_formula (fields : List Field) (fieldSize : Field → Nat) :
    recordSizeHint fields fieldSize =
      fields.length * 8 + (fields.map fieldSize).sum := by
  rw [recordSizeHint, plusJoin_eq_sum]

/-- C3: for an enum with an explicit representation, each of the three
generated operations applied to a variant with declared discriminant `d`
equals the corresponding `repr` operation applied to the integer `d`;
gaps and non-contiguous discriminants are preserved as declared. -/
theorem weak_enum_encodes_declared_discriminant (variants : List Variant)
    (reprImpl : EncodeImpl Int) (i : Fin variants.length) (d : Int) (buf : Buf)
    (h : (variants.get i).discr = some d) :
    (weakEnumGenerated variants reprImpl).encode i buf = reprImpl.encode d buf ∧
    (weakEnumGenerated variants reprImpl).encodeNullable i buf =
      reprImpl.encodeNullable d buf ∧
    (weakEnumGenerated variants reprImpl).sizeHint i = reprImpl.sizeHint d := by
  have hc := variantCast_of_declared variants i d h
  refine ⟨?_, ?_, ?_⟩ <;> simp [weakEnumGenerated, hc]

/-- The `Weak` test enum of `tests/postgres-derives.rs`: `#[repr(i32)]`
with declared discriminants `One = 0`, `Two = 2`, `Three = 4`. -/
def weakTestVariants : List Variant :=
  [⟨"One", none, some 0⟩, ⟨"Two", none, some 2⟩, ⟨"Three", none, some 4⟩]

/-- A concrete integer `Encode` implementation used to instantiate the
generated code in witnesses: appends the value as one abstract byte. -/
def intTestImpl : EncodeImpl Int where
  encode n buf := buf ++ [n]
  encodeNullable n buf := (buf ++ [n], IsNull.no)
  sizeHint _ := 4

/-- Witness for C3 at the `Weak` enum `{One = 0, Two = 2, Three = 4}`:
`Two` is encoded as the integer 2. -/
theorem weak_enum_encodes_declared_discriminant_witness :
    (weakTestVariants.get ⟨1, by decide⟩).discr = some 2 ∧
    (weakEnumGenerated weakTestVariants intTestImpl).encode ⟨1, by decide⟩ [] =
      intTestImpl.encode 2 [] :=
  ⟨by decide,
    (weak_enum_encodes_declared_discriminant weakTestVariants intTestImpl
      ⟨1, by decide⟩ 2 [] (by decide)).1⟩

/-- C4: for an enum without a representation, the label generated for
each variant — in the `value_arms` table and used by the generated
`encode` and `size_hint` — is the explicit rename if present, else the
container `rename_all` convention applied to the identifier, else the
raw identifier, strictly in that order. -/
theorem strong_enum_label_precedence (renameAllPattern : Option CasingConvention)
    (variants : List Variant) (strImpl : EncodeImpl String)
    (i : Fin variants.length) (buf : Buf) :
    (buildValueArms renameAllPattern variants)[i.val]? =
      some ((variants.get i).ident,
        specVariantLabel renameAllPattern (variants.get i)) ∧
    (strongEnumGenerated renameAllPattern variants strImpl).encode i buf =
      strImpl.encode (specVariantLabel renameAllPattern (variants.get i)) buf ∧
    (strongEnumGenerated renameAllPattern variants strImpl).sizeHint i =
      strImpl.sizeHint (specVariantLabel renameAllPattern (variants.get i)) := by
  have harm := buildValueArms_getElem? renameAllPattern variants i.val
    (variants.get i) (by rw [List.getElem?_eq_getElem i.isLt]; simp)
  have hlabel : strongEnumLabel renameAllPattern variants i.val =
      specVariantLabel renameAllPattern (variants.get i) := by
    rw [strongEnumLabel, List.getD_eq_getElem?_getD, harm]
    rfl
  exact ⟨harm, by simp [strongEnumGenerated, hlabel], by simp [strongEnumGenerated, hlabel]⟩

/-- C5: the impl generated for a single-field unnamed aggregate delegates
all three operations unchanged to the inner field, so the wrapper's size
hint equals the inner field's and the bytes written by `encode` are
exactly those the inner type writes alone. -/
theorem transparent_delegates_to_inner {β : Type} (inner : EncodeImpl β)
    (v : Wrap β) (buf : Buf) :
    (transparentGenerated inner).encode v buf = inner.encode v.field0 buf ∧
    (transparentGenerated inner).encodeNullable v buf =
      inner.encodeNullable v.field0 buf ∧
    (transparentGenerated inner).sizeHint v = inner.sizeHint v.field0 :=
  ⟨rfl, rfl, rfl⟩

/-- The `Strong` test enum of `tests/postgres-derives.rs`:
`rename_all = "lowercase"`, variants `One`, `Two`, and `Three` renamed to
`"four"`. -/
def strongTestVariants : List Variant :=
  [⟨"One", none, none⟩, ⟨"Two", none, none⟩, ⟨"Three", some "four", none⟩]

/-- The derive input for the `Strong` test enum. -/
def strongTestInput : DeriveInput :=
  ⟨"Strong", .enum strongTestVariants, ⟨none, some "text", some .lowercase⟩⟩

/-- C6 counterexample: the impl emitted for the strong-enum strategy
(here at the concrete `Strong` test enum) contains no `encode_nullable`
item, so not every generated contract comprises all three operations. -/
theorem strong_enum_contract_lacks_encode_nullable :
    "encode_nullable" ∉ emittedFns (classify strongTestInput) ∧
    classify strongTestInput = .strongEnum strongTestVariants := by
  decide

/-- C6 amended: every generated contract comprises `encode` and
`size_hint` bound to the subject type; the Transparent and WeakEnum
contracts additionally comprise `encode_nullable`, while the StrongEnum
and Record contracts omit it. -/
theorem emitted_contract_operations (f : Field) (vs ws : List Variant)
    (fs : List Field) :
    emittedFns (.transparent f) = ["encode", "encode_nullable", "size_hint"] ∧
    emittedFns (.weakEnum vs) = ["encode", "encode_nullable", "size_hint"] ∧
    emittedFns (.strongEnum ws) = ["encode", "size_hint"] ∧
    emittedFns (.record fs) = ["encode", "size_hint"] :=
  ⟨rfl, rfl, rfl, rfl⟩

/-- C7: each unsupported shape — a union, a zero- or multi-field unnamed
aggregate, a unit struct — makes `expand_derive_encode` return the error
naming the violated rule, never a generated contract. -/
theorem unsupported_shapes_are_rejected (postgres : Bool) (input : DeriveInput) :
    (input.data = .union →
      expand_derive_encode postgres input = .error "unions are not supported") ∧
    (∀ fs, input.data = .struct (.unnamed fs) → fs.length ≠ 1 →
      expand_derive_encode postgres input =
        .error "structs with zero or more than one unnamed field are not supported") ∧
    (input.data = .struct .unit →
      expand_derive_encode postgres input = .error "unit structs are not supported") := by
  refine ⟨?_, ?_, ?_⟩
  · intro h
    simp [expand_derive_encode, h]
  · intro fs h hlen
    rcases fs with _ | ⟨a, _ | ⟨b, t⟩⟩
    · simp [expand_derive_encode, h]
    · simp at hlen
    · simp [expand_derive_encode, h]
  · intro h
    simp [expand_derive_encode, h]

/-- Witness for C7 at a concrete union input. -/
theorem unsupported_shapes_are_rejected_witness :
    expand_derive_encode true ⟨"U", Data.union, ⟨none, none, none⟩⟩ =
      .error "unions are not supported" :=
  (unsupported_shapes_are_rejected true ⟨"U", Data.union, ⟨none, none, none⟩⟩).1 rfl

/-- Projects the field name out of an encoder write operation. -/
def writtenField : PgRecordOp → Option (Option String)
  | .write f => some f
  | _ => none

/-- C8: the emitted record `encode` body opens the encoder scope first,
finalizes it last, performs exactly one encoder write per declared field
— in declaration order — and nothing else. -/
theorem record_encode_writes_fields_in_order (fields : List Field) :
    (recordEncodeProgram fields).head? = some PgRecordOp.newEncoder ∧
    (recordEncodeProgram fields).getLast? = some PgRecordOp.finish ∧
    (recordEncodeProgram fields).filterMap writtenField = fields.map Field.ident ∧
    (recordEncodeProgram fields).length = fields.length + 2 := by
  refine ⟨rfl, ?_, ?_, by simp [recordEncodeProgram]⟩
  · rw [recordEncodeProgram]
    exact List.getLast?_concat _
  · simp only [recordEncodeProgram, List.filterMap_append, List.filterMap_map]
    simp [writtenField, Function.comp, List.filterMap_cons]
    exact List.filterMap_eq_map (fun f => Field.ident f) ▸ rfl

/-- C9: record generation is gated on the backend capability flag alone:
for a named-field aggregate with valid attributes, generation with the
flag set returns the record impl, and without the flag it still succeeds
and returns the empty output rather than an error. -/
theorem record_generation_backend_gated (input : DeriveInput) (fields : List Field)
    (hdata : input.data = .struct (.named fields))
    (hrepr : input.attrs.repr = none) :
    expand_derive_encode true input = .ok (.recordImpl fields) ∧
    expand_derive_encode false input = .ok .empty := by
  constructor <;>
    simp [expand_derive_encode, hdata, expand_derive_encode_struct,
      check_struct_attributes, hrepr]

/-- The fields of the `InventoryItem` record of `tests/postgres-derives.rs`. -/
def inventoryItemFields : List Field :=
  [⟨some "name", "String"⟩, ⟨some "supplier_id", "Option<i32>"⟩,
    ⟨some "price", "Option<i64>"⟩]

/-- The derive input for the `InventoryItem` record. -/
def inventoryItemInput : DeriveInput :=
  ⟨"InventoryItem", .struct (.named inventoryItemFields),
    ⟨none, some "inventory_item", none⟩⟩

/-- Witness for C9 at the `InventoryItem` record. -/
theorem record_generation_backend_gated_witness :
    expand_derive_encode true inventoryItemInput =
      .ok (.recordImpl inventoryItemFields) ∧
    expand_derive_encode false inventoryItemInput = .ok .empty :=
  record_generation_backend_gated inventoryItemInput inventoryItemFields rfl rfl

/-- C10: a named-field aggregate with zero fields is classified as Record
and reaches the record generator (its emitted size hint summing over the
empty field list, giving 0), while the zero-field unnamed aggregate and
the unit struct are the shapes that are rejected. -/
theorem empty_named_struct_reaches_record (input : DeriveInput)
    (fieldSize : Field → Nat)
    (hdata : input.data = .struct (.named []))
    (hrepr : input.attrs.repr = none) :
    classify input = .record [] ∧
    expand_derive_encode true input = .ok (.recordImpl []) ∧
    recordSizeHint [] fieldSize = 0 ∧
    (∀ input2 : DeriveInput, input2.data = .struct (.unnamed []) →
      classify input2 =
        .unsupported "structs with zero or more than one unnamed field are not supported") ∧
    (∀ input3 : DeriveInput, input3.data = .struct .unit →
      classify input3 = .unsupported "unit structs are not supported") := by
  refine ⟨?_, ?_, rfl, ?_, ?_⟩
  · simp [classify, hdata]
  · simp [expand_derive_encode, hdata, expand_derive_encode_struct,
      check_struct_attributes, hrepr]
  · intro input2 h2
    simp [classify, h2]
  · intro input3 h3
    simp [classify, h3]

/-- Witness for C10 at a concrete empty braced struct. -/
theorem empty_named_struct_reaches_record_witness :
    classify ⟨"Empty", .struct (.named []), ⟨none, none, none⟩⟩ = .record [] :=
  (empty_named_struct_reaches_record
    ⟨"Empty", .struct (.named []), ⟨none, none, none⟩⟩ (fun _ => 0) rfl rfl).1

end SqlxEncode
